import Mathlib

/-!
Verification of the memetracker txt-to-JSON converter
(`src/data_cleaner/txt_to_json.py`).

The Python source is shallowly embedded: strings are lists of characters,
the mutable per-meme dictionary `{'P','T','Q','L'}` is the structure
`MemeData`, the insertion-ordered Python output dictionary is an
association list, and the file-reading loop of `convert_txt_file_to_json`
is the fold `run_lines` over a list of decoded lines, where a line that
raises `UnicodeDecodeError` while being decoded is modelled as `none`
(the `except UnicodeDecodeError` sits outside the `for` loop, so the
fold stops at the first `none`).  A missing input file is modelled by
passing `none` as the whole file.
-/

set_option maxRecDepth 4000

namespace MemeTracker

/-- Strings of the Python source, as lists of characters. -/
abbrev Str := List Char

/-- The ASCII whitespace characters recognised by Python `str.strip()`
(space, tab, newline, carriage return, vertical tab, form feed). -/
def isPyWS (c : Char) : Bool :=
  c = ' ' || c = '\t' || c = '\n' || c = '\x0d' || c = '\x0b' || c = '\x0c'

/-- Python `file_line.strip()` with no argument: removes the characters
satisfying `isPyWS` from BOTH ends of the string. -/
def pyStrip (s : Str) : Str :=
  ((s.dropWhile isPyWS).reverse.dropWhile isPyWS).reverse

/-- Python `s.split('\t')`: cut the string at every tab character; `n` tabs
give `n + 1` parts, and the empty string gives the single part `[]`. -/
def splitTab : Str → List Str
  | [] => [[]]
  | c :: rest =>
    if c = '\t' then [] :: splitTab rest
    else
      match splitTab rest with
      | [] => [[c]]
      | p :: ps => (c :: p) :: ps

/-- The per-meme accumulator dictionary built by
`construct_meme_data_tracker_dict` in the source: keys `'P'`, `'T'`,
`'Q'`, `'L'`. -/
structure MemeData where
  P : Str
  T : Str
  Q : List Str
  L : List Str
deriving DecidableEq, Repr

/-- `construct_meme_data_tracker_dict()`: the fresh accumulator
`{'P': '', 'T': '', 'Q': [], 'L': []}`. -/
def construct_meme_data_tracker_dict : MemeData :=
  { P := [], T := [], Q := [], L := [] }

/-- `process_txt_file_line(file_line, individual_meme_data_dict)`.
The line is stripped, then split on tab; unpacking into exactly two parts
either succeeds (tag dispatch, return `True`) or raises `ValueError`
(return `False`, dictionary untouched).  The Python function mutates the
dictionary in place and returns a boolean; the embedding returns the pair
of the boolean and the (possibly updated) dictionary. -/
def process_txt_file_line (file_line : Str) (d : MemeData) : Bool × MemeData :=
  match splitTab (pyStrip file_line) with
  | [cid, content] =>
    if cid = ['P'] then (true, { d with P := content })
    else if cid = ['T'] then (true, { d with T := content })
    else if cid = ['Q'] then (true, { d with Q := d.Q ++ [content] })
    else if cid = ['L'] then (true, { d with L := d.L ++ [content] })
    else (true, d)
  | _ => (false, d)

/-- One record of the output JSON document:
`{'url': ..., 'id_num': ..., 'timestamp': ..., 'phrases': ..., 'links': ...}`. -/
structure MemeRecord where
  url : Str
  id_num : Nat
  timestamp : Str
  phrases : List Str
  links : List Str
deriving DecidableEq, Repr

/-- The output document `output_json_file_data`: a Python `dict` from url
strings to records, modelled as an insertion-ordered association list. -/
abbrev JsonDict := List (Str × MemeRecord)

/-- Python `dict` assignment `d[k] = v`: update the value in place if the
key is present (keeping its position), otherwise append the new pair. -/
def dictInsert (k : Str) (v : MemeRecord) : JsonDict → JsonDict
  | [] => [(k, v)]
  | (k', v') :: rest =>
    if k' = k then (k, v) :: rest else (k', v') :: dictInsert k v rest

/-- Python `dict` lookup `d[k]` (as an `Option`). -/
def dictLookup (k : Str) : JsonDict → Option MemeRecord
  | [] => none
  | (k', v) :: rest => if k' = k then some v else dictLookup k rest

/-- `add_data_to_json_file_data_dict(individual_meme_data_dict,
output_json_file_data, meme_record_id)`: unpack the accumulator and store
`output_json_file_data[url] = {url, id_num, timestamp, phrases, links}`. -/
def add_data_to_json_file_data_dict (d : MemeData) (out : JsonDict)
    (meme_record_id : Nat) : JsonDict :=
  dictInsert d.P
    { url := d.P, id_num := meme_record_id, timestamp := d.T,
      phrases := d.Q, links := d.L } out

/-- The record that `add_data_to_json_file_data_dict` builds from the
accumulator `d` and the id `n`. -/
def mkRecord (d : MemeData) (n : Nat) : MemeRecord :=
  { url := d.P, id_num := n, timestamp := d.T, phrases := d.Q, links := d.L }

/-- The loop state of `convert_txt_file_to_json`: the output dictionary,
the accumulator, the running `meme_record_id`, and (as a ghost trace used
only by the theorems) the list of records emitted so far, in order. -/
structure ConvState where
  dict : JsonDict
  acc : MemeData
  nextId : Nat
  emitted : List MemeRecord
deriving DecidableEq, Repr

/-- The state at the top of `convert_txt_file_to_json`: empty output
dictionary, fresh accumulator, counter at the given `meme_record_id`. -/
def initState (meme_record_id : Nat) : ConvState :=
  { dict := [], acc := construct_meme_data_tracker_dict,
    nextId := meme_record_id, emitted := [] }

/-- The body of the `for file_line in txt_file` loop: process the line;
on a boundary (`process_txt_file_line` returns `False`) add the
accumulator to the output dictionary, reset it, and increment the id. -/
def convert_step (st : ConvState) (line : Str) : ConvState :=
  let r := process_txt_file_line line st.acc
  if r.1 then { st with acc := r.2 }
  else
    { dict := add_data_to_json_file_data_dict st.acc st.dict st.nextId,
      acc := construct_meme_data_tracker_dict,
      nextId := st.nextId + 1,
      emitted := st.emitted ++ [mkRecord st.acc st.nextId] }

/-- One line handed to the loop by the decoding file iterator: `none`
models a line whose UTF-8 decoding raises `UnicodeDecodeError`. -/
abbrev FileLine := Option Str

/-- The `for` loop of `convert_txt_file_to_json` together with its
surrounding `try`/`except UnicodeDecodeError`: the exception handler is
OUTSIDE the loop, so the first undecodable line ends the iteration and
the state reached so far is what gets written. -/
def run_lines : List FileLine → ConvState → ConvState
  | [], st => st
  | none :: _, st => st
  | some l :: rest, st => run_lines rest (convert_step st l)

/-- `convert_txt_file_to_json(...)`: `input = none` models
`exist_file(input_txt_file_path)` being false (early return of the
unchanged `meme_record_id`, no output written); otherwise the loop runs
from a fresh state and the function returns the updated id together with
the written document (paired with the ghost emission trace). -/
def convert_txt_file_to_json (input : Option (List FileLine))
    (meme_record_id : Nat) : Nat × Option (JsonDict × List MemeRecord) :=
  match input with
  | none => (meme_record_id, none)
  | some lines =>
    let st := run_lines lines (initState meme_record_id)
    (st.nextId, some (st.dict, st.emitted))

/-- The `for input_file_name in input_file_names` loop of
`convert_txt_files_from_directory`, threading `record_id` through the
return value of each `convert_txt_file_to_json` call. -/
def convertFilesLoop : List (Option (List FileLine)) → Nat →
    List (Option (JsonDict × List MemeRecord)) × Nat
  | [], n => ([], n)
  | f :: rest, n =>
    let r := convert_txt_file_to_json f n
    let rs := convertFilesLoop rest r.1
    (r.2 :: rs.1, rs.2)

/-- `convert_txt_files_from_directory(...)`: the batch driver initialises
`record_id = 0` and runs the loop over the determined file list. -/
def convert_txt_files_from_directory (files : List (Option (List FileLine))) :
    List (Option (JsonDict × List MemeRecord)) × Nat :=
  convertFilesLoop files 0

/-- The characters of the literal `'.json'`. -/
def jsonExt : Str := ['.', 'j', 's', 'o', 'n']

/-- Does `p` occur at the head of `s`? -/
def leadsWith : Str → Str → Bool
  | [], _ => true
  | _ :: _, [] => false
  | p :: ps, c :: cs => p = c && leadsWith ps cs

/-- Left-to-right scan of Python `str.replace` for a non-empty pattern:
at each position, if the pattern occurs, emit the replacement and skip
the occurrence, else emit one character; fuelled by the input length. -/
def pyReplaceAux (old new : Str) : Nat → Str → Str
  | 0, s => s
  | _ + 1, [] => []
  | fuel + 1, c :: rest =>
    if leadsWith old (c :: rest) then
      new ++ pyReplaceAux old new fuel ((c :: rest).drop old.length)
    else c :: pyReplaceAux old new fuel rest

/-- Python `s.replace(old, new)`: replace every non-overlapping occurrence
of `old`, left to right; with `old = ''` Python inserts `new` before every
character and at the end. -/
def pyReplace (s old new : Str) : Str :=
  if old = [] then new ++ s.foldr (fun c acc => c :: new ++ acc) []
  else pyReplaceAux old new s.length s

/-- `output_json_file_name = input_txt_file_name.replace(
input_txt_file_extension, '.json')` from `convert_txt_file_to_json`. -/
def output_json_file_name (input_txt_file_name input_txt_file_extension : Str) :
    Str :=
  pyReplace input_txt_file_name input_txt_file_extension jsonExt

/-- The tag/content view of one line: `some (tag, content)` exactly when
the stripped line splits on tab into exactly two parts. -/
def parseLine (l : Str) : Option (Str × Str) :=
  match splitTab (pyStrip l) with
  | [a, b] => some (a, b)
  | _ => none

/-- The spec's description of `process_txt_file_line` as one equation:
boundary when the split is not a pair, otherwise tag dispatch. -/
theorem process_txt_file_line_eq (l : Str) (d : MemeData) :
    process_txt_file_line l d =
      match parseLine l with
      | none => (false, d)
      | some (a, b) =>
        (true,
          if a = ['P'] then { d with P := b }
          else if a = ['T'] then { d with T := b }
          else if a = ['Q'] then { d with Q := d.Q ++ [b] }
          else if a = ['L'] then { d with L := d.L ++ [b] }
          else d) := by
  rcases hs : splitTab (pyStrip l) with _ | ⟨a, _ | ⟨b, _ | ⟨c, t⟩⟩⟩
  · simp [process_txt_file_line, parseLine, hs]
  · simp [process_txt_file_line, parseLine, hs]
  · simp only [process_txt_file_line, parseLine, hs]
    split_ifs <;> rfl
  · simp [process_txt_file_line, parseLine, hs]

theorem process_of_parse_none (l : Str) (d : MemeData)
    (h : parseLine l = none) : process_txt_file_line l d = (false, d) := by
  rw [process_txt_file_line_eq, h]

theorem process_of_parse_some (l : Str) (d : MemeData) (a b : Str)
    (h : parseLine l = some (a, b)) :
    process_txt_file_line l d =
      (true,
        if a = ['P'] then { d with P := b }
        else if a = ['T'] then { d with T := b }
        else if a = ['Q'] then { d with Q := d.Q ++ [b] }
        else if a = ['L'] then { d with L := d.L ++ [b] }
        else d) := by
  rw [process_txt_file_line_eq, h]

theorem parseLine_none_of_length_ne_two (l : Str)
    (h : (splitTab (pyStrip l)).length ≠ 2) : parseLine l = none := by
  unfold parseLine
  rcases hs : splitTab (pyStrip l) with _ | ⟨a, _ | ⟨b, _ | ⟨c, t⟩⟩⟩
  · rfl
  · rfl
  · exact absurd (by rw [hs]; rfl) h
  · rfl

theorem parseLine_isSome_of_length_two (l : Str)
    (h : (splitTab (pyStrip l)).length = 2) : (parseLine l).isSome := by
  unfold parseLine
  rcases hs : splitTab (pyStrip l) with _ | ⟨a, _ | ⟨b, _ | ⟨c, t⟩⟩⟩ <;>
    rw [hs] at h <;> simp_all

/-- C1.  A raw line whose stripped form does not split on tab into exactly
two parts makes `process_txt_file_line` return `continues = false` with
the accumulator dictionary completely unchanged. -/
theorem C1_boundary_leaves_accumulator_unchanged (line : Str) (d : MemeData)
    (h : (splitTab (pyStrip line)).length ≠ 2) :
    process_txt_file_line line d = (false, d) :=
  process_of_parse_none line d (parseLine_none_of_length_ne_two line h)

/-- Witness for C1 at the blank line (which strips and splits to a single
empty part). -/
theorem C1_boundary_leaves_accumulator_unchanged_witness :
    (splitTab (pyStrip [])).length ≠ 2 ∧
      process_txt_file_line [] construct_meme_data_tracker_dict =
        (false, construct_meme_data_tracker_dict) :=
  ⟨by decide,
   C1_boundary_leaves_accumulator_unchanged [] construct_meme_data_tracker_dict
     (by decide)⟩

/-- Processing a list of raw lines through `process_txt_file_line`,
keeping only the accumulator (the loop body while no boundary fires). -/
def procAll (ls : List Str) (d : MemeData) : MemeData :=
  ls.foldl (fun a l => (process_txt_file_line l a).2) d

/-- The tag/content pairs of the lines that split into exactly two parts. -/
def taggedLines (ls : List Str) : List (Str × Str) :=
  ls.filterMap parseLine

/-- The contents of the pairs carrying exactly the one-character tag `t`,
in order. -/
def contentsOf (t : Char) (ps : List (Str × Str)) : List Str :=
  (ps.filter (fun p => p.1 = [t])).map Prod.snd

/-- The content of the last pair carrying the tag `t`, or `dflt` if none. -/
def lastContentOr (t : Char) (ps : List (Str × Str)) (dflt : Str) : Str :=
  (contentsOf t ps).getLast?.getD dflt

theorem getLastD_cons_list (b dflt : Str) (xs : List Str) :
    ((b :: xs).getLast?).getD dflt = (xs.getLast?).getD b := by
  induction xs generalizing b dflt with
  | nil => rfl
  | cons y ys ih => rw [List.getLast?_cons_cons, ih y dflt, ih y b]

theorem contentsOf_cons_self (t : Char) (b : Str) (ps : List (Str × Str)) :
    contentsOf t (([t], b) :: ps) = b :: contentsOf t ps := by
  simp [contentsOf]

theorem contentsOf_cons_other (t : Char) (a b : Str) (ps : List (Str × Str))
    (h : a ≠ [t]) : contentsOf t ((a, b) :: ps) = contentsOf t ps := by
  simp [contentsOf, h]

theorem lastContentOr_cons_self (t : Char) (b dflt : Str)
    (ps : List (Str × Str)) :
    lastContentOr t (([t], b) :: ps) dflt = lastContentOr t ps b := by
  rw [lastContentOr, lastContentOr, contentsOf_cons_self, getLastD_cons_list]

theorem lastContentOr_cons_other (t : Char) (a b dflt : Str)
    (ps : List (Str × Str)) (h : a ≠ [t]) :
    lastContentOr t ((a, b) :: ps) dflt = lastContentOr t ps dflt := by
  rw [lastContentOr, lastContentOr, contentsOf_cons_other t a b ps h]

/-- C2.  Over any run of lines since a reset, `process_txt_file_line`
leaves the accumulator holding: for `P`/`T` the content of the last such
line (the starting value if none), and for `Q`/`L` the in-order list of
all the `Q` (resp. `L`) contents appended to the starting value.
Specialised to `d = construct_meme_data_tracker_dict` this is the state
since the last reset. -/
theorem C2_tag_dispatch_accumulation (ls : List Str) (d : MemeData)
    (hwf : ∀ l ∈ ls, (parseLine l).isSome) :
    procAll ls d =
      { P := lastContentOr 'P' (taggedLines ls) d.P,
        T := lastContentOr 'T' (taggedLines ls) d.T,
        Q := d.Q ++ contentsOf 'Q' (taggedLines ls),
        L := d.L ++ contentsOf 'L' (taggedLines ls) } := by
  induction ls generalizing d with
  | nil =>
    simp [procAll, taggedLines, contentsOf, lastContentOr]
  | cons l ls ih =>
    obtain ⟨⟨a, b⟩, hp⟩ := Option.isSome_iff_exists.mp (hwf l (by simp))
    have hwf' : ∀ x ∈ ls, (parseLine x).isSome := fun x hx => hwf x (by simp [hx])
    have htag : taggedLines (l :: ls) = (a, b) :: taggedLines ls := by
      simp [taggedLines, List.filterMap_cons_some hp]
    have hstep : procAll (l :: ls) d = procAll ls (process_txt_file_line l d).2 :=
      rfl
    rw [hstep, process_of_parse_some l d a b hp, htag]
    by_cases hP : a = ['P']
    · subst hP
      rw [if_pos rfl, ih _ hwf',
        lastContentOr_cons_self 'P' b d.P (taggedLines ls),
        lastContentOr_cons_other 'T' ['P'] b d.T (taggedLines ls) (by decide),
        contentsOf_cons_other 'Q' ['P'] b (taggedLines ls) (by decide),
        contentsOf_cons_other 'L' ['P'] b (taggedLines ls) (by decide)]
    · by_cases hT : a = ['T']
      · subst hT
        rw [if_neg hP, if_pos rfl, ih _ hwf',
          lastContentOr_cons_other 'P' ['T'] b d.P (taggedLines ls) (by decide),
          lastContentOr_cons_self 'T' b d.T (taggedLines ls),
          contentsOf_cons_other 'Q' ['T'] b (taggedLines ls) (by decide),
          contentsOf_cons_other 'L' ['T'] b (taggedLines ls) (by decide)]
      · by_cases hQ : a = ['Q']
        · subst hQ
          rw [if_neg hP, if_neg hT, if_pos rfl, ih _ hwf',
            lastContentOr_cons_other 'P' ['Q'] b d.P (taggedLines ls) (by decide),
            lastContentOr_cons_other 'T' ['Q'] b d.T (taggedLines ls) (by decide),
            contentsOf_cons_self 'Q' b (taggedLines ls),
            contentsOf_cons_other 'L' ['Q'] b (taggedLines ls) (by decide)]
          simp [List.append_assoc]
        · by_cases hL : a = ['L']
          · subst hL
            rw [if_neg hP, if_neg hT, if_neg hQ, if_pos rfl, ih _ hwf',
              lastContentOr_cons_other 'P' ['L'] b d.P (taggedLines ls) (by decide),
              lastContentOr_cons_other 'T' ['L'] b d.T (taggedLines ls) (by decide),
              contentsOf_cons_other 'Q' ['L'] b (taggedLines ls) (by decide),
              contentsOf_cons_self 'L' b (taggedLines ls)]
            simp [List.append_assoc]
          · rw [if_neg hP, if_neg hT, if_neg hQ, if_neg hL, ih _ hwf',
              lastContentOr_cons_other 'P' a b d.P (taggedLines ls) hP,
              lastContentOr_cons_other 'T' a b d.T (taggedLines ls) hT,
              contentsOf_cons_other 'Q' a b (taggedLines ls) hQ,
              contentsOf_cons_other 'L' a b (taggedLines ls) hL]

/-- Witness for C2 on the spec's worked example: a P line, a T line, two
Q lines, an L line, with a second P line to show last-wins. -/
theorem C2_tag_dispatch_accumulation_witness :
    (∀ l ∈ [['P', '\t', 'a'], ['T', '\t', 't'], ['Q', '\t', 'q'],
        ['P', '\t', 'b'], ['Q', '\t', 'r'], ['L', '\t', 'x']],
      (parseLine l).isSome) ∧
    procAll [['P', '\t', 'a'], ['T', '\t', 't'], ['Q', '\t', 'q'],
        ['P', '\t', 'b'], ['Q', '\t', 'r'], ['L', '\t', 'x']]
      construct_meme_data_tracker_dict =
      { P := lastContentOr 'P'
          (taggedLines [['P', '\t', 'a'], ['T', '\t', 't'], ['Q', '\t', 'q'],
            ['P', '\t', 'b'], ['Q', '\t', 'r'], ['L', '\t', 'x']])
          construct_meme_data_tracker_dict.P,
        T := lastContentOr 'T'
          (taggedLines [['P', '\t', 'a'], ['T', '\t', 't'], ['Q', '\t', 'q'],
            ['P', '\t', 'b'], ['Q', '\t', 'r'], ['L', '\t', 'x']])
          construct_meme_data_tracker_dict.T,
        Q := construct_meme_data_tracker_dict.Q ++ contentsOf 'Q'
          (taggedLines [['P', '\t', 'a'], ['T', '\t', 't'], ['Q', '\t', 'q'],
            ['P', '\t', 'b'], ['Q', '\t', 'r'], ['L', '\t', 'x']]),
        L := construct_meme_data_tracker_dict.L ++ contentsOf 'L'
          (taggedLines [['P', '\t', 'a'], ['T', '\t', 't'], ['Q', '\t', 'q'],
            ['P', '\t', 'b'], ['Q', '\t', 'r'], ['L', '\t', 'x']]) } :=
  ⟨by decide,
   C2_tag_dispatch_accumulation _ construct_meme_data_tracker_dict (by decide)⟩

theorem process_txt_file_line_fst (l : Str) (d : MemeData) :
    (process_txt_file_line l d).1 = (parseLine l).isSome := by
  rw [process_txt_file_line_eq]
  rcases parseLine l with _ | ⟨a, b⟩ <;> rfl

/-- A decoded line that is not a record boundary: it carries a raw string
whose stripped form splits into exactly two parts. -/
def nonBoundaryLine : FileLine → Bool
  | none => false
  | some raw => (parseLine raw).isSome

theorem convert_step_continues (st : ConvState) (l : Str)
    (h : (parseLine l).isSome) :
    convert_step st l = { st with acc := (process_txt_file_line l st.acc).2 } := by
  unfold convert_step
  rw [if_pos]
  rw [process_txt_file_line_fst, h]

theorem convert_step_boundary (st : ConvState) (l : Str)
    (h : parseLine l = none) :
    convert_step st l =
      { dict := add_data_to_json_file_data_dict st.acc st.dict st.nextId,
        acc := construct_meme_data_tracker_dict,
        nextId := st.nextId + 1,
        emitted := st.emitted ++ [mkRecord st.acc st.nextId] } := by
  unfold convert_step
  rw [if_neg]
  rw [process_txt_file_line_fst, h]
  simp

/-- The loop never resumes after an undecodable line: everything after the
first `none` is ignored and the state reached so far is kept. -/
theorem run_lines_stops_at_first_error (pre : List FileLine)
    (post : List FileLine) (st : ConvState) :
    run_lines (pre ++ none :: post) st = run_lines pre st := by
  induction pre generalizing st with
  | nil => rfl
  | cons x pre ih =>
    cases x with
    | none => rfl
    | some l => exact ih (convert_step st l)

theorem run_lines_append_of_decoded (xs ys : List FileLine) (st : ConvState)
    (h : ∀ x ∈ xs, x ≠ none) :
    run_lines (xs ++ ys) st = run_lines ys (run_lines xs st) := by
  induction xs generalizing st with
  | nil => rfl
  | cons x xs ih =>
    cases x with
    | none => exact absurd rfl (h none (by simp))
    | some l =>
      exact ih (convert_step st l) (fun x hx => h x (by simp [hx]))

theorem run_lines_nonboundary_preserves (suffix : List FileLine)
    (st : ConvState) (h : ∀ x ∈ suffix, nonBoundaryLine x) :
    (run_lines suffix st).dict = st.dict ∧
      (run_lines suffix st).nextId = st.nextId ∧
      (run_lines suffix st).emitted = st.emitted := by
  induction suffix generalizing st with
  | nil => exact ⟨rfl, rfl, rfl⟩
  | cons x xs ih =>
    cases x with
    | none => exact absurd (h none (by simp)) (by simp [nonBoundaryLine])
    | some l =>
      have hl : (parseLine l).isSome := by
        have := h (some l) (by simp)
        simpa [nonBoundaryLine] using this
      have hstep : run_lines (some l :: xs) st = run_lines xs (convert_step st l) :=
        rfl
      rw [hstep, convert_step_continues st l hl] at *
      exact ih _ (fun x hx => h x (by simp [hx]))

/-- C4.  `convert_txt_file_to_json` never flushes at end of stream: a
trailing run of well-formed field lines (no boundary after them) changes
neither the output dictionary, nor the id counter, nor the list of emitted
records — the in-progress record is silently dropped. -/
theorem C4_no_flush_at_end_of_stream (lines suffix : List FileLine)
    (st : ConvState) (h : ∀ x ∈ suffix, nonBoundaryLine x) :
    (run_lines (lines ++ suffix) st).dict = (run_lines lines st).dict ∧
      (run_lines (lines ++ suffix) st).nextId = (run_lines lines st).nextId ∧
      (run_lines (lines ++ suffix) st).emitted = (run_lines lines st).emitted := by
  induction lines generalizing st with
  | nil => exact run_lines_nonboundary_preserves suffix st h
  | cons x xs ih =>
    cases x with
    | none => exact ⟨rfl, rfl, rfl⟩
    | some l => exact ih (convert_step st l)

/-- Witness for C4: a file whose last record (a P and a T line) is not
followed by a boundary; the dictionary, counter and emissions are those of
the prefix ending at the last boundary. -/
theorem C4_no_flush_at_end_of_stream_witness :
    (∀ x ∈ [some ['T', '\t', 't'], some ['P', '\t', 'b']], nonBoundaryLine x) ∧
    ((run_lines ([some ['P', '\t', 'a'], some []] ++
        [some ['T', '\t', 't'], some ['P', '\t', 'b']]) (initState 0)).dict =
      (run_lines [some ['P', '\t', 'a'], some []] (initState 0)).dict ∧
     (run_lines ([some ['P', '\t', 'a'], some []] ++
        [some ['T', '\t', 't'], some ['P', '\t', 'b']]) (initState 0)).nextId =
      (run_lines [some ['P', '\t', 'a'], some []] (initState 0)).nextId ∧
     (run_lines ([some ['P', '\t', 'a'], some []] ++
        [some ['T', '\t', 't'], some ['P', '\t', 'b']]) (initState 0)).emitted =
      (run_lines [some ['P', '\t', 'a'], some []] (initState 0)).emitted) :=
  ⟨by decide,
   C4_no_flush_at_end_of_stream [some ['P', '\t', 'a'], some []]
     [some ['T', '\t', 't'], some ['P', '\t', 'b']] (initState 0) (by decide)⟩

/-- Counterexample to C5 as stated.  The claim says a decoding failure
skips only the failing line and the remaining lines are still processed;
then the stream `[error, boundary]` would have to end in the same state as
`[boundary]` alone.  It does not: the `except UnicodeDecodeError` sits
outside the `for` loop, so iteration stops at the failure and the boundary
line after it is never processed (no flush, counter still 0). -/
theorem C5_counterexample :
    run_lines [none, some []] (initState 0) ≠
      run_lines [some []] (initState 0) := by
  decide

/-- C5 amended.  A character-decoding failure on a line ends the iteration
over the file: the lines after the failure are not processed at all, and
the conversion keeps (and writes) exactly the state accumulated strictly
before the failing line. -/
theorem C5_decode_error_stops_iteration (pre post : List FileLine)
    (st : ConvState) :
    run_lines (pre ++ none :: post) st = run_lines pre st :=
  run_lines_stops_at_first_error pre post st

/-- C10.  A boundary line flushes unconditionally: after a boundary line
`b1`, a second consecutive boundary line `b2` inserts the empty record
(url `''`, empty timestamp, no phrases, no links) under the key `''` and
consumes one more record id. -/
theorem C10_double_boundary_emits_empty_record (pre : List FileLine)
    (b1 b2 : Str) (st : ConvState) (hpre : ∀ x ∈ pre, x ≠ none)
    (h1 : parseLine b1 = none) (h2 : parseLine b2 = none) :
    run_lines (pre ++ [some b1, some b2]) st =
      { dict := dictInsert []
          { url := [], id_num := (run_lines (pre ++ [some b1]) st).nextId,
            timestamp := [], phrases := [], links := [] }
          (run_lines (pre ++ [some b1]) st).dict,
        acc := construct_meme_data_tracker_dict,
        nextId := (run_lines (pre ++ [some b1]) st).nextId + 1,
        emitted := (run_lines (pre ++ [some b1]) st).emitted ++
          [{ url := [], id_num := (run_lines (pre ++ [some b1]) st).nextId,
             timestamp := [], phrases := [], links := [] }] } := by
  have hsplit1 : run_lines (pre ++ [some b1]) st =
      convert_step (run_lines pre st) b1 := by
    rw [run_lines_append_of_decoded pre [some b1] st hpre]; rfl
  have hsplit2 : run_lines (pre ++ [some b1, some b2]) st =
      convert_step (convert_step (run_lines pre st) b1) b2 := by
    rw [run_lines_append_of_decoded pre [some b1, some b2] st hpre]; rfl
  rw [hsplit2, hsplit1, convert_step_boundary _ b1 h1, convert_step_boundary _ b2 h2]
  rfl

/-- Witness for C10: two blank lines right at the start of the file. -/
theorem C10_double_boundary_emits_empty_record_witness :
    parseLine [] = none ∧
    run_lines ([] ++ [some [], some []]) (initState 0) =
      { dict := dictInsert []
          { url := [], id_num := (run_lines ([] ++ [some []]) (initState 0)).nextId,
            timestamp := [], phrases := [], links := [] }
          (run_lines ([] ++ [some []]) (initState 0)).dict,
        acc := construct_meme_data_tracker_dict,
        nextId := (run_lines ([] ++ [some []]) (initState 0)).nextId + 1,
        emitted := (run_lines ([] ++ [some []]) (initState 0)).emitted ++
          [{ url := [], id_num := (run_lines ([] ++ [some []]) (initState 0)).nextId,
             timestamp := [], phrases := [], links := [] }] } :=
  ⟨by decide,
   C10_double_boundary_emits_empty_record [] [] [] (initState 0)
     (by simp) (by decide) (by decide)⟩

/-- All records emitted by a batch run, in file order then emission order. -/
def batchEmitted : List (Option (JsonDict × List MemeRecord)) → List MemeRecord
  | [] => []
  | none :: rest => batchEmitted rest
  | some (_, es) :: rest => es ++ batchEmitted rest

theorem range'_one_append (s m n : Nat) :
    List.range' s m ++ List.range' (s + m) n = List.range' s (m + n) := by
  induction m generalizing s with
  | zero => simp
  | succ m ih =>
    rw [List.range'_succ]
    have hmn : m + 1 + n = (m + n) + 1 := by omega
    rw [hmn, List.range'_succ, List.cons_append]
    have hs : s + (m + 1) = (s + 1) + m := by omega
    rw [hs, ih (s + 1)]

theorem run_lines_emitted_ids (ls : List FileLine) (st : ConvState) :
    ∃ new : List MemeRecord,
      (run_lines ls st).emitted = st.emitted ++ new ∧
      new.map MemeRecord.id_num = List.range' st.nextId new.length ∧
      (run_lines ls st).nextId = st.nextId + new.length := by
  induction ls generalizing st with
  | nil => exact ⟨[], by simp [run_lines], by simp, by simp [run_lines]⟩
  | cons x xs ih =>
    cases x with
    | none => exact ⟨[], by simp [run_lines], by simp, by simp [run_lines]⟩
    | some l =>
      have hstep : run_lines (some l :: xs) st = run_lines xs (convert_step st l) :=
        rfl
      by_cases h : (parseLine l).isSome
      · rw [hstep, convert_step_continues st l h]
        exact ih _
      · have hnone : parseLine l = none := Option.not_isSome_iff_eq_none.mp h
        rw [hstep, convert_step_boundary st l hnone]
        obtain ⟨new', h1, h2, h3⟩ := ih
          { dict := add_data_to_json_file_data_dict st.acc st.dict st.nextId,
            acc := construct_meme_data_tracker_dict,
            nextId := st.nextId + 1,
            emitted := st.emitted ++ [mkRecord st.acc st.nextId] }
        refine ⟨mkRecord st.acc st.nextId :: new', ?_, ?_, ?_⟩
        · rw [h1]; simp
        · rw [List.length_cons, List.range'_succ, List.map_cons, h2]
          rfl
        · rw [h3]; simp; omega

theorem convertFilesLoop_ids (files : List (Option (List FileLine))) (n : Nat) :
    (batchEmitted (convertFilesLoop files n).1).map MemeRecord.id_num =
      List.range' n (batchEmitted (convertFilesLoop files n).1).length ∧
    (convertFilesLoop files n).2 =
      n + (batchEmitted (convertFilesLoop files n).1).length := by
  induction files generalizing n with
  | nil => exact ⟨rfl, rfl⟩
  | cons f rest ih =>
    cases f with
    | none =>
      have hloop : convertFilesLoop (none :: rest) n =
          ((convertFilesLoop rest n).1.cons none, (convertFilesLoop rest n).2) := rfl
      rw [hloop]
      exact ih n
    | some lines =>
      obtain ⟨em, h1, h2, h3⟩ := run_lines_emitted_ids lines (initState n)
      have hem : (run_lines lines (initState n)).emitted = em := by
        rw [h1]; rfl
      have h2' : List.map MemeRecord.id_num em = List.range' n em.length := h2
      have h3' : (run_lines lines (initState n)).nextId = n + em.length := h3
      have hloop1 : (convertFilesLoop (some lines :: rest) n).1 =
          some ((run_lines lines (initState n)).dict, em) ::
            (convertFilesLoop rest (n + em.length)).1 := by
        rw [← h3', ← hem]; rfl
      have hloop2 : (convertFilesLoop (some lines :: rest) n).2 =
          (convertFilesLoop rest (n + em.length)).2 := by
        rw [← h3']; rfl
      have hbatch : batchEmitted ((convertFilesLoop (some lines :: rest) n).1) =
          em ++ batchEmitted ((convertFilesLoop rest (n + em.length)).1) := by
        rw [hloop1]; rfl
      obtain ⟨ih1, ih2⟩ := ih (n + em.length)
      refine ⟨?_, ?_⟩
      · rw [hbatch, List.map_append, h2', ih1, List.length_append]
        exact range'_one_append n em.length _
      · rw [hloop2, ih2, hbatch, List.length_append]
        omega

/-- C3.  In one batch run, record ids are assigned from a counter starting
at 0, incremented by exactly 1 at each flush and threaded across files via
each conversion's return value: the ids of all emitted records, in order
within and across files, are exactly `0, 1, 2, ...` up to the returned
counter — strictly increasing, no gaps, no repeats, starting at 0. -/
theorem C3_batch_ids_are_range (files : List (Option (List FileLine))) :
    (batchEmitted (convert_txt_files_from_directory files).1).map
        MemeRecord.id_num =
      List.range (convert_txt_files_from_directory files).2 := by
  obtain ⟨h1, h2⟩ := convertFilesLoop_ids files 0
  unfold convert_txt_files_from_directory
  rw [h1, List.range_eq_range', h2]
  simp

/-- The dictionary obtained by `d[r.url] = r` for every record of `es`,
in order, starting from the empty dictionary. -/
def dictOf (es : List MemeRecord) : JsonDict :=
  es.foldl (fun d r => dictInsert r.url r d) []

theorem dictOf_append_singleton (es : List MemeRecord) (r : MemeRecord) :
    dictOf (es ++ [r]) = dictInsert r.url r (dictOf es) := by
  simp [dictOf, List.foldl_append]

theorem dictLookup_insert (k u : Str) (v : MemeRecord) (d : JsonDict) :
    dictLookup u (dictInsert k v d) =
      if k = u then some v else dictLookup u d := by
  induction d with
  | nil => simp [dictInsert, dictLookup]
  | cons p rest ih =>
    obtain ⟨k', v'⟩ := p
    by_cases hk : k' = k
    · subst hk
      simp only [dictInsert, if_pos rfl, dictLookup]
      by_cases hu : k' = u <;> simp [hu]
    · simp only [dictInsert, if_neg hk, dictLookup]
      by_cases hu : k' = u
      · subst hu
        have : ¬ k = k' := fun h => hk h.symm
        simp [this]
      · simp [hu, ih]

theorem dictInsert_length_of_lookup_none (k : Str) (v : MemeRecord)
    (d : JsonDict) (h : dictLookup k d = none) :
    (dictInsert k v d).length = d.length + 1 := by
  induction d with
  | nil => rfl
  | cons p rest ih =>
    obtain ⟨k', v'⟩ := p
    by_cases hk : k' = k
    · rw [dictLookup, if_pos hk] at h
      exact absurd h (by simp)
    · rw [dictLookup, if_neg hk] at h
      rw [dictInsert, if_neg hk, List.length_cons, List.length_cons, ih h]

theorem dictOf_lookup (es : List MemeRecord) (u : Str) :
    dictLookup u (dictOf es) =
      (es.filter (fun r => r.url = u)).getLast? := by
  induction es using List.reverseRecOn with
  | nil => rfl
  | append_singleton es r ih =>
    rw [dictOf_append_singleton, dictLookup_insert, List.filter_append]
    by_cases hu : r.url = u
    · rw [if_pos hu]
      have : List.filter (fun r => decide (r.url = u)) [r] = [r] := by simp [hu]
      rw [this, List.getLast?_concat]
    · rw [if_neg hu]
      have : List.filter (fun r => decide (r.url = u)) [r] = [] := by simp [hu]
      rw [this, List.append_nil, ih]

theorem dictOf_length_of_nodup (es : List MemeRecord)
    (h : (es.map (fun r => r.url)).Nodup) :
    (dictOf es).length = es.length := by
  induction es using List.reverseRecOn with
  | nil => rfl
  | append_singleton es r ih =>
    rw [List.map_append, List.nodup_append] at h
    obtain ⟨h1, _, h3⟩ := h
    have hnotin : ∀ x ∈ es, ¬ x.url = r.url := by
      intro x hx hurl
      exact h3 (List.mem_map_of_mem _ hx) (by simp [hurl])
    have hlook : dictLookup r.url (dictOf es) = none := by
      rw [dictOf_lookup]
      have : List.filter (fun x => decide (x.url = r.url)) es = [] := by
        simp only [List.filter_eq_nil_iff]
        intro a ha
        simpa using hnotin a ha
      rw [this]
      rfl
    rw [dictOf_append_singleton,
      dictInsert_length_of_lookup_none _ _ _ hlook, ih h1]
    simp

theorem run_lines_dict_eq_dictOf (ls : List FileLine) (st : ConvState)
    (h : st.dict = dictOf st.emitted) :
    (run_lines ls st).dict = dictOf (run_lines ls st).emitted := by
  induction ls generalizing st with
  | nil => exact h
  | cons x xs ih =>
    cases x with
    | none => exact h
    | some l =>
      have hstep : run_lines (some l :: xs) st = run_lines xs (convert_step st l) :=
        rfl
      rw [hstep]
      by_cases hb : (parseLine l).isSome
      · rw [convert_step_continues st l hb]
        exact ih _ h
      · have hnone : parseLine l = none := Option.not_isSome_iff_eq_none.mp hb
        rw [convert_step_boundary st l hnone]
        refine ih _ ?_
        show add_data_to_json_file_data_dict st.acc st.dict st.nextId =
          dictOf (st.emitted ++ [mkRecord st.acc st.nextId])
        rw [dictOf_append_singleton, h]
        rfl

/-- C7.  The output mapping is keyed by url and a later record with the
same url overwrites the earlier one: the lookup of any url is the LAST
emitted record with that url, and when all emitted urls are distinct the
mapping has exactly one key per emitted record. -/
theorem C7_output_keyed_by_url_last_wins (lines : List FileLine)
    (startId : Nat) :
    (((run_lines lines (initState startId)).emitted.map
        (fun r => r.url)).Nodup →
      (run_lines lines (initState startId)).dict.length =
        (run_lines lines (initState startId)).emitted.length) ∧
    ∀ u, dictLookup u (run_lines lines (initState startId)).dict =
      ((run_lines lines (initState startId)).emitted.filter
        (fun r => r.url = u)).getLast? := by
  have hinv : (run_lines lines (initState startId)).dict =
      dictOf (run_lines lines (initState startId)).emitted :=
    run_lines_dict_eq_dictOf lines (initState startId) rfl
  constructor
  · intro hnodup
    rw [hinv]
    exact dictOf_length_of_nodup _ hnodup
  · intro u
    rw [hinv]
    exact dictOf_lookup _ u

/-- Witness for C7: two boundary-delimited records with distinct urls
give a two-key dictionary. -/
theorem C7_output_keyed_by_url_last_wins_witness :
    ((run_lines [some ['P', '\t', 'a'], some [], some ['P', '\t', 'b'], some []]
        (initState 0)).emitted.map (fun r => r.url)).Nodup ∧
    (run_lines [some ['P', '\t', 'a'], some [], some ['P', '\t', 'b'], some []]
        (initState 0)).dict.length =
      (run_lines [some ['P', '\t', 'a'], some [], some ['P', '\t', 'b'], some []]
        (initState 0)).emitted.length :=
  ⟨by decide,
   (C7_output_keyed_by_url_last_wins
     [some ['P', '\t', 'a'], some [], some ['P', '\t', 'b'], some []] 0).1
     (by decide)⟩

/-- Modelled from the spec claim for C6: a strip that removes ONLY
trailing whitespace, keeping leading characters of the raw line. -/
def stripTrailingOnly (s : Str) : Str :=
  (s.reverse.dropWhile isPyWS).reverse

/-- Counterexample to C6 as stated.  On the raw line `' P\ta'` (leading
space), Python `strip()` removes the LEADING space too, so the line is
dispatched as a `P` line and the accumulator is overwritten; under the
claim (leading characters preserved in the string that is split) the tag
would be `' P'`, unrecognised, and the accumulator would stay unchanged. -/
theorem C6_counterexample :
    pyStrip [' ', 'P', '\t', 'a'] ≠ stripTrailingOnly [' ', 'P', '\t', 'a'] ∧
    (process_txt_file_line [' ', 'P', '\t', 'a']
        construct_meme_data_tracker_dict).2 ≠
      construct_meme_data_tracker_dict := by
  decide

theorem pyStrip_pad (pre s suf : Str) (hpre : ∀ c ∈ pre, isPyWS c)
    (hsuf : ∀ c ∈ suf, isPyWS c) :
    pyStrip ((pre ++ s) ++ suf) = pyStrip s := by
  unfold pyStrip
  rw [List.append_assoc, List.dropWhile_append_of_pos hpre]
  by_cases hs : s.dropWhile isPyWS = []
  · have hsuf' : suf.dropWhile isPyWS = [] :=
      List.dropWhile_eq_nil_iff.mpr hsuf
    have hboth : (s ++ suf).dropWhile isPyWS = [] := by
      rw [List.dropWhile_append, hs]
      simp [hsuf']
    rw [hboth, hs]
  · rw [List.dropWhile_append]
    have hne : (s.dropWhile isPyWS).isEmpty = false := by
      simpa [List.isEmpty_iff] using hs
    rw [hne]
    simp only [Bool.false_eq_true, if_false]
    rw [List.reverse_append,
      List.dropWhile_append_of_pos (fun c hc => hsuf c (List.mem_reverse.mp hc))]

/-- C6 amended.  `process_txt_file_line` strips BOTH leading and trailing
whitespace from the raw line before splitting (Python `str.strip()` with
no argument): surrounding whitespace on either side never changes the
result of processing. -/
theorem C6_strip_removes_surrounding_whitespace (pre s suf : Str)
    (d : MemeData) (hpre : ∀ c ∈ pre, isPyWS c) (hsuf : ∀ c ∈ suf, isPyWS c) :
    process_txt_file_line ((pre ++ s) ++ suf) d = process_txt_file_line s d := by
  have hparse : parseLine ((pre ++ s) ++ suf) = parseLine s := by
    unfold parseLine
    rw [pyStrip_pad pre s suf hpre hsuf]
  rw [process_txt_file_line_eq, process_txt_file_line_eq, hparse]

/-- Witness for C6 amended: a leading space and a trailing newline around
a `P` line change nothing. -/
theorem C6_strip_removes_surrounding_whitespace_witness :
    (∀ c ∈ [' '], isPyWS c) ∧ (∀ c ∈ ['\n'], isPyWS c) ∧
    process_txt_file_line (([' '] ++ ['P', '\t', 'a']) ++ ['\n'])
        construct_meme_data_tracker_dict =
      process_txt_file_line ['P', '\t', 'a'] construct_meme_data_tracker_dict :=
  ⟨by decide, by decide,
   C6_strip_removes_surrounding_whitespace [' '] ['P', '\t', 'a'] ['\n']
     construct_meme_data_tracker_dict (by decide) (by decide)⟩

/-- C8.  When the constructed input path does not name an existing file
(modelled by `input = none`), `convert_txt_file_to_json` returns the
`meme_record_id` counter unchanged and produces no output document. -/
theorem C8_missing_input_file_is_noop (meme_record_id : Nat) :
    convert_txt_file_to_json none meme_record_id = (meme_record_id, none) :=
  rfl

/-- Counterexample to C9 as stated.  `str.replace` replaces EVERY
occurrence of the extension, so the name `a.txt.txt` (which ends in the
configured extension `.txt`, base name `a.txt`) becomes `a.json.json`,
not the base name followed by `.json`. -/
theorem C9_counterexample :
    output_json_file_name ['a', '.', 't', 'x', 't', '.', 't', 'x', 't']
        ['.', 't', 'x', 't'] =
      ['a', '.', 'j', 's', 'o', 'n', '.', 'j', 's', 'o', 'n'] ∧
    ['a', '.', 'j', 's', 'o', 'n', '.', 'j', 's', 'o', 'n'] ≠
      ['a', '.', 't', 'x', 't'] ++ jsonExt := by
  decide

theorem leadsWith_self (s : Str) : leadsWith s s = true := by
  induction s with
  | nil => rfl
  | cons c cs ih => simp [leadsWith, ih]

theorem pyReplaceAux_nil (old new : Str) (fuel : Nat) :
    pyReplaceAux old new fuel [] = [] := by
  cases fuel <;> rfl

theorem pyReplaceAux_only_end (ext new : Str) (hne : ext ≠ []) :
    ∀ (base : Str) (fuel : Nat), (base ++ ext).length ≤ fuel →
      (∀ i < base.length, leadsWith ext ((base ++ ext).drop i) = false) →
      pyReplaceAux ext new fuel (base ++ ext) = base ++ new := by
  intro base
  induction base with
  | nil =>
    intro fuel hfuel _
    rcases hext : ext with _ | ⟨e, es⟩
    · exact absurd hext hne
    · cases fuel with
      | zero =>
        rw [hext] at hfuel
        simp at hfuel
      | succ f =>
        simp [pyReplaceAux, leadsWith_self, pyReplaceAux_nil]
  | cons c rest ih =>
    intro fuel hfuel honce
    cases fuel with
    | zero => simp at hfuel
    | succ f =>
      have h0 : leadsWith ext ((c :: rest) ++ ext) = false := by
        have := honce 0 (by simp)
        simpa using this
      have hshift : ∀ i < rest.length, leadsWith ext ((rest ++ ext).drop i) = false := by
        intro i hi
        have hmem := honce (i + 1) (by simpa using Nat.succ_lt_succ hi)
        rw [List.cons_append, List.drop_succ_cons] at hmem
        exact hmem
      have hfuel' : (rest ++ ext).length ≤ f := by
        simp at hfuel ⊢
        omega
      rw [List.cons_append] at h0 ⊢
      simp only [pyReplaceAux, h0, Bool.false_eq_true, if_false]
      rw [ih f hfuel' hshift, List.cons_append]

/-- C9 amended.  The output file name is the input file name with EVERY
occurrence of the configured extension replaced by `.json`; in particular
when the (non-empty) extension occurs exactly once in the name, at its
very end, the result is the base name followed by `.json`. -/
theorem C9_output_name_replaces_extension (base ext : Str) (hne : ext ≠ [])
    (honce : ∀ i < base.length, leadsWith ext ((base ++ ext).drop i) = false) :
    output_json_file_name (base ++ ext) ext = base ++ jsonExt := by
  unfold output_json_file_name pyReplace
  rw [if_neg hne]
  exact pyReplaceAux_only_end ext jsonExt hne base (base ++ ext).length le_rfl honce

/-- Witness for C9 amended on the name `a.txt` with extension `.txt`. -/
theorem C9_output_name_replaces_extension_witness :
    (['.', 't', 'x', 't'] : Str) ≠ [] ∧
    output_json_file_name (['a'] ++ ['.', 't', 'x', 't']) ['.', 't', 'x', 't'] =
      ['a'] ++ jsonExt :=
  ⟨by decide,
   C9_output_name_replaces_extension ['a'] ['.', 't', 'x', 't']
     (by decide) (by decide)⟩

end MemeTracker
